import Mathlib

/-!
Verification development for the Recallify backend (document ingestion and
retrieval pipeline).  Python text values are embedded as `List Char`; the
ChromaDB collections are embedded as association lists of records; fallible
operations return `Except`, with the error payload carrying the state of the
mutable collection at the moment the exception escapes.

Source files embedded here:
  Backend/services/chroma_utils.py   (clear_collection, add_to_db,
                                      get_all_documents, get_document_chunks,
                                      delete_document)
  Backend/services/embeddings.py     (get_embeddings; embed_text is the
                                      external embedding collaborator)
  Backend/services/vector_store.py   (VectorStore.store_document,
                                      get_all_documents, get_document_chunks,
                                      delete_document)
  Backend/services/pdf_processor.py  (SimpleTextSplitter.split_text,
                                      PDFProcessor.chunk_text)
  Backend/services/gemini_utils.py   (generate_followup_question history fold)
  Backend/main.py                    (upload_pdf, delete_document_route)
-/

namespace Recallify

/-- Python text embedded as a list of characters. -/
abbrev Text := List Char

/-! ## Decimal rendering of natural numbers (Python `str(i)` inside f-strings)

`digitsRevF` is fuel-indexed so that every definition stays structurally
recursive and kernel-computable; fuel `n` is always enough for value `n`. -/

/-- Decimal digits of `n`, least significant first, computed with fuel. -/
def digitsRevF : Nat → Nat → List Nat
  | 0, _ => []
  | f + 1, n => if n = 0 then [] else (n % 10) :: digitsRevF f (n / 10)

/-- Value of a least-significant-first digit list. -/
def fromDigitsRev : List Nat → Nat
  | [] => 0
  | d :: ds => d + 10 * fromDigitsRev ds

/-- The character for one decimal digit. -/
def digitChar : Nat → Char
  | 0 => '0' | 1 => '1' | 2 => '2' | 3 => '3' | 4 => '4'
  | 5 => '5' | 6 => '6' | 7 => '7' | 8 => '8' | _ => '9'

/-- Numeric value of a decimal digit character. -/
def charToDigit (c : Char) : Nat := c.toNat - 48

/-- Python `str(n)` for a natural number: decimal, no sign, no padding. -/
def natChars (n : Nat) : Text :=
  if n = 0 then [ '0' ] else ((digitsRevF n n).map digitChar).reverse

/-- Parse a decimal digit string back to a natural number. -/
def parseNatChars (cs : Text) : Nat :=
  fromDigitsRev (cs.reverse.map charToDigit)

/-! ## chroma_utils.py: the module-level `lecture_notes` collection

A record of the module-level collection.  `add_to_db` stores the metadata
constant `source: lecture_pdf` for every record, so metadata carries no
per-record information and is omitted. -/

/-- One embedding dictionary produced by `get_embeddings`. -/
structure EmbRec where
  id : Text
  text : Text
  embedding : List Int
deriving DecidableEq

/-- One record of the `lecture_notes` ChromaDB collection. -/
structure CRec where
  id : Text
  text : Text
  embedding : List Int
deriving DecidableEq

/-- The record `collection.add` stores for one embedding dictionary. -/
def recOfEmb (e : EmbRec) : CRec := ⟨e.id, e.text, e.embedding⟩

/-- chroma_utils.clear_collection: fetches every id and deletes them all. -/
def clearCollection (_store : List CRec) : List CRec := []

/-- chroma_utils.add_to_db: optionally clear the whole collection, then add
each embedding dictionary in a loop, one `collection.add` call per record.
The Python default is `clear_first=True`. -/
def addToDb (embs : List EmbRec) (clearFirst : Bool) (store : List CRec) : List CRec :=
  let st0 := if clearFirst then clearCollection store else store
  embs.foldl (fun st e => st ++ [recOfEmb e]) st0

/-- The id `get_embeddings` assigns to chunk `i`: the f-string
`chunk_` followed by the decimal index, with no document component. -/
def embChunkId (i : Nat) : Text :=
  [ 'c', 'h', 'u', 'n', 'k', '_' ] ++ natChars i

/-- embeddings.get_embeddings, chunk numbering starting at `i`:
embed each chunk through the external collaborator `embedOf`
(which raises on failure), sequentially and fail-fast. -/
def getEmbeddingsFrom (embedOf : Text → Except Text (List Int)) :
    Nat → List Text → Except Text (List EmbRec)
  | _, [] => Except.ok []
  | i, c :: cs =>
    match embedOf c with
    | Except.error e => Except.error e
    | Except.ok v =>
      match getEmbeddingsFrom embedOf (i + 1) cs with
      | Except.error e => Except.error e
      | Except.ok rest => Except.ok (⟨embChunkId i, c, v⟩ :: rest)

/-- embeddings.get_embeddings as called by upload_pdf (numbering from 0). -/
def getEmbeddings (embedOf : Text → Except Text (List Int)) (chunks : List Text) :
    Except Text (List EmbRec) :=
  getEmbeddingsFrom embedOf 0 chunks

/-- chroma_utils.add_to_db with a fallible substrate: `failAt k` says the
k-th `collection.add` call raises.  The loop has no try/except, so the
exception escapes with every earlier write already persisted; the error
payload is the collection state at that moment. -/
def addLoop (failAt : Nat → Bool) :
    Nat → List CRec → List EmbRec → Except (List CRec) (List CRec)
  | _, st, [] => Except.ok st
  | k, st, e :: es =>
    if failAt k then Except.error st
    else addLoop failAt (k + 1) (st ++ [recOfEmb e]) es

/-- add_to_db against the fallible substrate (clear step assumed healthy). -/
def addToDbF (failAt : Nat → Bool) (embs : List EmbRec) (clearFirst : Bool)
    (store : List CRec) : Except (List CRec) (List CRec) :=
  addLoop failAt 0 (if clearFirst then clearCollection store else store) embs

/-- The storage effect of main.upload_pdf: embed every chunk first
(`get_embeddings`), and only on success call `add_to_db` with its default
`clear_first=True`.  An embedding error escapes before any write, so the
error payload is the untouched store. -/
def uploadIngest (embedOf : Text → Except Text (List Int)) (failAt : Nat → Bool)
    (chunks : List Text) (store : List CRec) : Except (List CRec) (List CRec) :=
  match getEmbeddings embedOf chunks with
  | Except.error _ => Except.error store
  | Except.ok embs => addToDbF failAt embs true store

/-- chroma_utils.get_document_chunks: exact-id lookup; returns the content
dictionary when found and Python `None` (here `Option.none`) otherwise. -/
def chromaGetDocumentChunks (d : Text) (store : List CRec) : Option (Text × Text) :=
  match store.filter (fun r => r.id == d) with
  | [] => none
  | r :: _ => some (d, r.text)

/-- chroma_utils.delete_document: `collection.delete(ids=[document_id])`
inside try/except.  ChromaDB's delete silently ignores unknown ids and does
not raise, so the `ok` branch removes any record with that exact id and
returns True; only a substrate exception (the `outcome` argument) reaches
the except branch, which returns False with the store untouched. -/
def chromaDeleteDocument (outcome : Except Text Unit) (d : Text)
    (store : List CRec) : Bool × List CRec :=
  match outcome with
  | Except.error _ => (false, store)
  | Except.ok _ => (true, store.filter (fun r => !(r.id == d)))

/-- An HTTP response of the enclosing service: a success body, or an
HTTPException with status code and detail text. -/
inductive RouteResp where
  | ok (message : String)
  | httpError (status : Nat) (detail : String)
deriving DecidableEq

/-- main.delete_document_route after delete_document returned: a True result
returns the success body.  A False result raises HTTPException(404,
Document not found) inside the try block, but the route's blanket
except Exception catches that very exception (HTTPException subclasses
Exception) and re-raises it as a 500 whose detail wraps its string form, so
a False result actually surfaces as this fixed 500 response. -/
def deleteDocumentRoute (success : Bool) : RouteResp :=
  if success then RouteResp.ok ( "Document deleted successfully" )
  else RouteResp.httpError 500 ( "Error deleting document: " ++ "404: Document not found" )

/-! ## gemini_utils.py: conversation-history folding -/

/-- One question/answer exchange as passed by the caller. -/
structure Turn where
  question : String
  answer : String

/-- The rendering of one turn inside generate_followup_question. -/
def renderTurn (t : Turn) : String :=
  "Previous Q: " ++ t.question ++ "\nYour Answer: " ++ t.answer

/-- Python's newline join over a list of rendered turns. -/
def joinNL : List String → String
  | [] => ""
  | [x] => x
  | x :: xs => x ++ "\n" ++ joinNL xs

/-- generate_followup_question's conversation_context: the empty string when
the history is absent (None) or empty, otherwise the join of the rendered
last three turns (`conversation_history[-3:]`) in order. -/
def foldHistory : Option (List Turn) → String
  | none => ""
  | some h => if h.isEmpty then "" else joinNL ((h.drop (h.length - 3)).map renderTurn)

/-! ## pdf_processor.py: SimpleTextSplitter and PDFProcessor.chunk_text -/

/-- Whitespace as recognised by Python str.strip and str.split on the
character set this pipeline produces. -/
def wsp (c : Char) : Bool :=
  c == ' ' || c == '\t' || c == '\n' || c == '\r'

/-- The paragraph delimiter, a blank line. -/
def nl2 : Text := [ '\n', '\n' ]

/-- Python text.split on the two-character separator of a blank line:
non-overlapping, left to right, keeping empty pieces, one (possibly empty)
piece when the separator is absent. -/
def splitPar : Text → List Text
  | [] => [[]]
  | '\n' :: '\n' :: t => [] :: splitPar t
  | c :: t =>
    match splitPar t with
    | [] => [[ c ]]
    | h :: r => (c :: h) :: r

/-- Python str.strip: drop whitespace from both ends (right end first here;
the two orders agree). -/
def stripChars (l : Text) : Text :=
  ((l.reverse.dropWhile wsp).reverse).dropWhile wsp

/-- The accumulation loop of SimpleTextSplitter.split_text over the
paragraph list, carrying the flushed chunks and the open current chunk.
A paragraph that would push the open chunk past `size` flushes the stripped
chunk and starts the next one with the last `ov` characters of the previous
one (the overlap), the blank-line separator and the new paragraph; otherwise
the paragraph is appended to the open chunk after a blank line. -/
def splitLoop (size ov : Nat) :
    List Text → Text → List Text → List Text × Text
  | chunks, cur, [] => (chunks, cur)
  | chunks, cur, p :: ps =>
    if size < cur.length + p.length then
      if cur = [] then splitLoop size ov chunks p ps
      else splitLoop size ov (chunks ++ [stripChars cur])
        (cur.drop (cur.length - ov) ++ nl2 ++ p) ps
    else
      if cur = [] then splitLoop size ov chunks p ps
      else splitLoop size ov chunks (cur ++ nl2 ++ p) ps

/-- SimpleTextSplitter.split_text with budget `size` and overlap `ov`:
split into paragraphs, run the accumulation loop, and flush the trailing
chunk if non-empty. -/
def splitText (size ov : Nat) (text : Text) : List Text :=
  match splitLoop size ov [] [] (splitPar text) with
  | (chunks, cur) => if cur = [] then chunks else chunks ++ [stripChars cur]

/-- Joining chunks back with the blank-line delimiter (the reconstruction
the completeness property speaks about). -/
def joinPar : List Text → Text
  | [] => []
  | [x] => x
  | x :: xs => x ++ nl2 ++ joinPar xs

/-- Python len(s.split()): the number of maximal non-whitespace runs. -/
def countWords (l : Text) : Nat :=
  (l.foldl
    (fun st c =>
      if wsp c then (st.1, false)
      else (if st.2 then st.1 else st.1 + 1, true))
    ((0 : Nat), false)).1

/-- One chunk dictionary built by PDFProcessor.chunk_text. -/
structure ChunkObj where
  content : Text
  chunk_index : Nat
  character_count : Nat
  word_count : Nat
deriving DecidableEq

/-- PDFProcessor.chunk_text: split with the fixed budget 1000 and overlap
200, then attach index and derived counts. -/
def chunkText (text : Text) : List ChunkObj :=
  (splitText 1000 200 text).enum.map
    (fun pr => ⟨pr.2, pr.1, pr.2.length, countWords pr.2⟩)

/-! ## vector_store.py: the VectorStore class over the documents collection -/

/-- The metadata store_document writes for one chunk. -/
structure VSMeta where
  document_id : Text
  filename : Text
  chunk_index : Nat
  character_count : Nat
  word_count : Nat
  upload_timestamp : Nat
deriving DecidableEq

/-- One record of the documents collection. -/
structure VSRec where
  id : Text
  content : Text
  meta : VSMeta
deriving DecidableEq

/-- One aggregated entry of VectorStore.get_all_documents. -/
structure DocEntry where
  document_id : Text
  filename : Text
  upload_timestamp : Nat
  chunk_count : Nat
  total_characters : Nat
  total_words : Nat
deriving DecidableEq

/-- The separator the store_document f-string places between the document id
and the decimal chunk index. -/
def chunkSep : Text := [ '_', 'c', 'h', 'u', 'n', 'k', '_' ]

/-- The chunk id VectorStore.store_document builds: the f-string of the
document id, the separator and the decimal chunk index. -/
def storeChunkId (d : Text) (i : Nat) : Text :=
  d ++ chunkSep ++ natChars i

/-- Recovery of parent document and chunk index from a store_document id:
read the decimal index off the end, then drop the seven separator
characters; what is left is the document id. -/
def recoverChunkId (s : Text) : Text × Nat :=
  (((s.reverse.dropWhile (fun c => c.isDigit)).drop 7).reverse,
   parseNatChars ((s.reverse.takeWhile (fun c => c.isDigit)).reverse))

/-- VectorStore.store_document: build documents, metadatas and ids for every
chunk, then issue one batch collection.add; `addFails` says that single
substrate call raises, in which case nothing was written and the error
payload is the untouched store. -/
def storeDocumentF (addFails : Bool) (documentId filename : Text) (ts : Nat)
    (chunks : List ChunkObj) (store : List VSRec) :
    Except (List VSRec) (List VSRec) :=
  let newRecs := chunks.enum.map (fun pr =>
    (⟨storeChunkId documentId pr.1, pr.2.content,
      ⟨documentId, filename, pr.1, pr.2.character_count, pr.2.word_count, ts⟩⟩ : VSRec))
  if addFails then Except.error store else Except.ok (store ++ newRecs)

/-- VectorStore.get_all_documents as written.  In the source the for-loop
body holds only the assignment of doc_id; the entry-creation block and the
three increments sit after the loop (one indentation level too far left), so
they run once, seeing the metadata and doc_id of the last record.  The
documents dictionary is empty at that point, so exactly one entry is created
with zero counters and incremented once. -/
def getAllDocumentsVS (store : List VSRec) : List DocEntry :=
  match (store.map VSRec.meta).getLast? with
  | none => []
  | some m =>
    [⟨m.document_id, m.filename, m.upload_timestamp, 0 + 1,
      0 + m.character_count, 0 + m.word_count⟩]

/-- One step of the aggregation the spec describes: group by document_id,
count chunks and sum the character and word counts. -/
def updEntry (acc : List DocEntry) (m : VSMeta) : List DocEntry :=
  if acc.any (fun e => e.document_id == m.document_id) then
    acc.map (fun e =>
      if e.document_id == m.document_id then
        ⟨e.document_id, e.filename, e.upload_timestamp, e.chunk_count + 1,
         e.total_characters + m.character_count, e.total_words + m.word_count⟩
      else e)
  else
    acc ++ [⟨m.document_id, m.filename, m.upload_timestamp, 1,
      m.character_count, m.word_count⟩]

/-- Modelled from the spec: get_all_documents aggregated by grouping all
records by document_id, one entry per distinct id, chunk_count the number of
records and the totals the sums of the per-record counts.  Stated for
comparison against getAllDocumentsVS. -/
def getAllDocumentsSpec (store : List VSRec) : List DocEntry :=
  (store.map VSRec.meta).foldl updEntry []

/-- Stable insertion of a record into a list sorted by chunk_index. -/
def insertByIdx (r : VSRec) : List VSRec → List VSRec
  | [] => [r]
  | x :: xs =>
    if r.meta.chunk_index ≤ x.meta.chunk_index then r :: x :: xs
    else x :: insertByIdx r xs

/-- Python's stable sort keyed on the chunk_index metadata. -/
def sortByIdx : List VSRec → List VSRec
  | [] => []
  | x :: xs => insertByIdx x (sortByIdx xs)

/-- VectorStore.get_document_chunks: fetch every record whose document_id
metadata matches, then sort ascending by chunk_index; an unknown id gives
the empty list. -/
def vsGetDocumentChunks (d : Text) (store : List VSRec) : List VSRec :=
  sortByIdx (store.filter (fun r => r.meta.document_id == d))

/-- VectorStore.delete_document: fetch the ids of every record whose
document_id matches; if any exist delete exactly those ids and return True,
otherwise return False. -/
def vsDeleteDocument (d : Text) (store : List VSRec) : Bool × List VSRec :=
  let matchedIds := (store.filter (fun r => r.meta.document_id == d)).map VSRec.id
  if matchedIds.isEmpty then (false, store)
  else (true, store.filter (fun r => !(matchedIds.contains r.id)))

/-! ## Claim C1 -/

/-- Claim C1 (code evaluation): the normal ingest path does implicitly reset
the store.  upload_pdf calls add_to_db with the default clear_first=True,
which runs clear_collection first: the resulting collection never depends on
the prior store, and a concrete previously ingested record is gone after a
new document is added. -/
theorem c1_ingest_clears_store :
    (∀ (embs : List EmbRec) (store : List CRec),
      addToDb embs true store = addToDb embs true []) ∧
    addToDb [⟨ "chunk_0".toList, "new".toList, [] ⟩] true
        [⟨ "docA_0".toList, "old".toList, [] ⟩]
      = [⟨ "chunk_0".toList, "new".toList, [] ⟩] ∧
    (⟨ "docA_0".toList, "old".toList, [] ⟩ : CRec) ∉
      addToDb [⟨ "chunk_0".toList, "new".toList, [] ⟩] true
        [⟨ "docA_0".toList, "old".toList, [] ⟩] := by
  refine ⟨fun embs store => rfl, rfl, ?_⟩
  decide

/-! ## Claim C4 -/

/-- Claim C4 (code evaluation): delete_document in chroma_utils returns True
even when no record matched, because ChromaDB's delete does not raise on
unknown ids; the claimed return-false-on-no-match contract (also stated in
the function's own docstring) only holds of VectorStore.delete_document,
shown on the same input. -/
theorem c4_delete_true_when_nothing_matched :
    chromaDeleteDocument (Except.ok ()) ( "ghost".toList ) [] = (true, []) ∧
    (vsDeleteDocument ( "ghost".toList ) []).1 = false := by
  exact ⟨rfl, rfl⟩

/-! ## Claim C9 -/

/-- Claim C9: generate_followup_question folds an empty string for an absent
or empty history, folds a short history whole in chronological order, and for
any longer history folds exactly the last three turns, oldest of those three
first, each rendered as a Question / Answer pair. -/
theorem c9_fold_history_window :
    foldHistory none = "" ∧
    foldHistory (some []) = "" ∧
    (∀ a b : Turn, foldHistory (some [a, b]) =
      renderTurn a ++ "\n" ++ renderTurn b) ∧
    (∀ (pre : List Turn) (a b c : Turn),
      foldHistory (some (pre ++ [a, b, c])) =
        renderTurn a ++ "\n" ++ renderTurn b ++ "\n" ++ renderTurn c) := by
  refine ⟨rfl, rfl, fun a b => rfl, fun pre a b c => ?_⟩
  have hlen : (pre ++ [a, b, c]).length - 3 = pre.length := by
    simp
  have hdrop : (pre ++ [a, b, c]).drop (pre.length) = [a, b, c] :=
    List.drop_left pre [a, b, c]
  have hne : (pre ++ [a, b, c]).isEmpty = false := by
    cases pre <;> rfl
  simp only [foldHistory, hlen, hdrop, hne, Bool.false_eq_true, if_false]
  simp [joinNL, String.append_assoc]

/-! ## Claim C10 -/

/-- Claim C10: delete_document in chroma_utils is total over every substrate
behavior: its except clause maps any substrate exception to the plain return
value False with the store untouched.  The route sees only that boolean, so
a storage error yields exactly the response of a False (not-found, per the
function's contract) result: the fixed error response whose detail wraps the
404 Document-not-found exception raised for False and re-raised as 500 by
the route's blanket except clause.  Storage errors are therefore
indistinguishable from a not-found outcome at the public interface. -/
theorem c10_delete_total_maps_error_to_false :
    ∀ (e : Text) (d : Text) (store : List CRec),
      chromaDeleteDocument (Except.error e) d store = (false, store) ∧
      deleteDocumentRoute (chromaDeleteDocument (Except.error e) d store).1 =
        deleteDocumentRoute false ∧
      deleteDocumentRoute false =
        RouteResp.httpError 500
          ( "Error deleting document: " ++ "404: Document not found" ) := by
  intro e d store
  exact ⟨rfl, rfl, rfl⟩

/-! ## Decimal rendering: supporting lemmas -/

theorem digitsRevF_lt_ten : ∀ (f n : Nat), ∀ d ∈ digitsRevF f n, d < 10 := by
  intro f
  induction f with
  | zero => intro n d hd; simp [digitsRevF] at hd
  | succ f ih =>
    intro n d hd
    by_cases h : n = 0
    · simp [digitsRevF, h] at hd
    · simp only [digitsRevF, h, if_false, List.mem_cons] at hd
      rcases hd with h1 | h2
      · subst h1; exact Nat.mod_lt n (by decide)
      · exact ih _ _ h2

theorem fromDigitsRev_digitsRevF : ∀ (f n : Nat), n ≤ f →
    fromDigitsRev (digitsRevF f n) = n := by
  intro f
  induction f with
  | zero =>
    intro n h
    interval_cases n
    rfl
  | succ f ih =>
    intro n h
    by_cases h0 : n = 0
    · subst h0; rfl
    · have hdiv : n / 10 < n := Nat.div_lt_self (Nat.pos_of_ne_zero h0) (by decide)
      have hle : n / 10 ≤ f := by omega
      simp only [digitsRevF, h0, if_false, fromDigitsRev, ih _ hle]
      exact Nat.mod_add_div n 10

theorem charToDigit_digitChar : ∀ d : Nat, d < 10 →
    charToDigit (digitChar d) = d := by
  intro d h
  interval_cases d <;> decide

theorem digitChar_isDigit : ∀ d : Nat, d < 10 →
    (digitChar d).isDigit = true := by
  intro d h
  interval_cases d <;> decide

theorem natChars_digits (n : Nat) : ∀ c ∈ natChars n, c.isDigit = true := by
  intro c hc
  by_cases h : n = 0
  · simp [natChars, h] at hc
    subst hc; decide
  · simp only [natChars, h, if_false, List.mem_reverse, List.mem_map] at hc
    obtain ⟨d, hd, rfl⟩ := hc
    exact digitChar_isDigit d (digitsRevF_lt_ten n n d hd)

theorem parse_natChars (n : Nat) : parseNatChars (natChars n) = n := by
  by_cases h : n = 0
  · subst h; rfl
  · simp only [natChars, h, if_false, parseNatChars, List.reverse_reverse,
      List.map_map]
    have hmap : (digitsRevF n n).map (charToDigit ∘ digitChar) = digitsRevF n n := by
      have h2 : ∀ d ∈ digitsRevF n n, (charToDigit ∘ digitChar) d = id d :=
        fun d hd => charToDigit_digitChar d (digitsRevF_lt_ten n n d hd)
      rw [List.map_congr_left h2, List.map_id]
    rw [hmap]
    exact fromDigitsRev_digitsRevF n n le_rfl

/-- takeWhile and dropWhile across an append whose left part satisfies the
predicate everywhere and whose right part starts with a failing element. -/
theorem takeDropAcross {α : Type} (p : α → Bool) :
    ∀ (l₁ : List α) (c : α) (t : List α),
      (∀ x ∈ l₁, p x = true) → p c = false →
      (l₁ ++ c :: t).takeWhile p = l₁ ∧ (l₁ ++ c :: t).dropWhile p = c :: t := by
  intro l₁
  induction l₁ with
  | nil =>
    intro c t _ hc
    simp [List.takeWhile_cons, List.dropWhile_cons, hc]
  | cons a l ih =>
    intro c t hall hc
    have ha : p a = true := hall a (by simp)
    have hrec := ih c t (fun x hx => hall x (by simp [hx])) hc
    simp [List.takeWhile_cons, List.dropWhile_cons, ha, hrec.1, hrec.2]

/-! ## Claim C2 -/

/-- Claim C2 (code evaluation): get_all_documents does not aggregate.  The
grouping block sits outside the for-loop in the source, so on a store of two
chunks of one document (character counts 5 and 7, word counts 2 and 3) the
code reports one entry with chunk_count 1 and only the last record's counts,
where grouping per the spec gives chunk_count 2 and the sums; and on a store
with two distinct documents the code reports one entry instead of two. -/
theorem c2_get_all_documents_last_record_only :
    getAllDocumentsVS
        [⟨ "d_chunk_0".toList, "c1".toList, ⟨ "d".toList, "f".toList, 0, 5, 2, 100⟩⟩,
         ⟨ "d_chunk_1".toList, "c2".toList, ⟨ "d".toList, "f".toList, 1, 7, 3, 100⟩⟩]
      = [⟨ "d".toList, "f".toList, 100, 1, 7, 3⟩] ∧
    getAllDocumentsSpec
        [⟨ "d_chunk_0".toList, "c1".toList, ⟨ "d".toList, "f".toList, 0, 5, 2, 100⟩⟩,
         ⟨ "d_chunk_1".toList, "c2".toList, ⟨ "d".toList, "f".toList, 1, 7, 3, 100⟩⟩]
      = [⟨ "d".toList, "f".toList, 100, 2, 12, 5⟩] ∧
    (getAllDocumentsVS
        [⟨ "d_chunk_0".toList, "c1".toList, ⟨ "d".toList, "f".toList, 0, 5, 2, 100⟩⟩,
         ⟨ "b_chunk_0".toList, "c3".toList, ⟨ "b".toList, "g".toList, 0, 4, 1, 200⟩⟩]).length = 1 ∧
    (getAllDocumentsSpec
        [⟨ "d_chunk_0".toList, "c1".toList, ⟨ "d".toList, "f".toList, 0, 5, 2, 100⟩⟩,
         ⟨ "b_chunk_0".toList, "c3".toList, ⟨ "b".toList, "g".toList, 0, 4, 1, 200⟩⟩]).length = 2 := by
  refine ⟨rfl, by decide, rfl, by decide⟩

/-! ## Claim C3 -/

/-- Claim C3 is refuted on add_to_db: with a substrate whose second
collection.add call raises, ingesting a two-chunk document leaves the first
chunk's record in the collection when the exception escapes — the store is
not in the pre-ingest state for that document and its record set is not
empty. -/
theorem c3_partial_write_survives :
    addToDbF (fun k => k == 1)
        [⟨ "chunk_0".toList, "t0".toList, [] ⟩, ⟨ "chunk_1".toList, "t1".toList, [] ⟩]
        true []
      = Except.error [⟨ "chunk_0".toList, "t0".toList, [] ⟩] ∧
    ([⟨ "chunk_0".toList, "t0".toList, [] ⟩] : List CRec) ≠ [] := by
  exact ⟨rfl, by decide⟩

/-- Claim C3 as amended: failures that precede every write are atomic.  An
embedding failure escapes from get_embeddings before any collection.add runs,
so the upload path leaves the store untouched; and VectorStore.store_document
issues one batch collection.add, so its failure also leaves the store
untouched.  Only the per-record write loop of add_to_db lacks cleanup. -/
theorem c3_embed_and_batch_atomic :
    (∀ (embedOf : Text → Except Text (List Int)) (failAt : Nat → Bool)
       (chunks : List Text) (store : List CRec) (e : Text),
      getEmbeddings embedOf chunks = Except.error e →
      uploadIngest embedOf failAt chunks store = Except.error store) ∧
    (∀ (documentId filename : Text) (ts : Nat) (chunks : List ChunkObj)
       (store : List VSRec),
      storeDocumentF true documentId filename ts chunks store = Except.error store) := by
  constructor
  · intro embedOf failAt chunks store e h
    unfold uploadIngest
    rw [h]
  · intro documentId filename ts chunks store
    rfl

/-- Witness for the amended C3 theorem at a concrete failing embedder. -/
theorem c3_embed_and_batch_atomic_witness :
    getEmbeddings (fun _ => Except.error ( "boom".toList)) [ "c".toList ]
      = Except.error ( "boom".toList) ∧
    uploadIngest (fun _ => Except.error ( "boom".toList)) (fun _ => false)
        [ "c".toList ] [] = Except.error [] :=
  ⟨rfl, c3_embed_and_batch_atomic.1 _ _ _ _ _ rfl⟩

/-! ## Claim C5 -/

/-- Claim C5 is refuted on the active upload path: get_embeddings builds ids
from the chunk index alone, so the first chunks of two different documents
both get the id chunk_0 — the id is not a composition containing the parent
document id, is not globally unique across documents, and cannot recover the
parent. -/
theorem c5_upload_ids_collide :
    getEmbeddings (fun _ => Except.ok []) [ "alpha".toList ]
      = Except.ok [⟨ "chunk_0".toList, "alpha".toList, [] ⟩] ∧
    getEmbeddings (fun _ => Except.ok []) [ "beta".toList ]
      = Except.ok [⟨ "chunk_0".toList, "beta".toList, [] ⟩] ∧
    "alpha".toList ≠ "beta".toList := by
  exact ⟨rfl, rfl, by decide⟩

/-- Claim C5 as amended, proved for VectorStore.store_document's id scheme:
the id written for chunk i of a document is the deterministic composition of
the document id, the separator and the decimal index, and recoverChunkId
recovers both the parent document and the index from the id alone (hence the
scheme is injective, and ids are globally unique whenever document ids
are). -/
theorem c5_store_id_recoverable (d : Text) (i : Nat) :
    recoverChunkId (storeChunkId d i) = (d, i) := by
  have hall : ∀ c ∈ (natChars i).reverse, (fun c : Char => c.isDigit) c = true := by
    intro c hc
    exact natChars_digits i c (List.mem_reverse.mp hc)
  have hcs : chunkSep.reverse = [ '_', 'k', 'n', 'u', 'h', 'c', '_' ] := rfl
  have hrev : (storeChunkId d i).reverse
      = (natChars i).reverse ++ '_' :: ([ 'k', 'n', 'u', 'h', 'c', '_' ] ++ d.reverse) := by
    simp [storeChunkId, List.reverse_append, hcs]
  have hTD := takeDropAcross (fun c : Char => c.isDigit) ((natChars i).reverse) '_'
    ([ 'k', 'n', 'u', 'h', 'c', '_' ] ++ d.reverse) hall (by decide)
  simp only [recoverChunkId, hrev, hTD.1, hTD.2, List.reverse_reverse]
  rw [show ('_' :: ([ 'k', 'n', 'u', 'h', 'c', '_' ] ++ d.reverse))
      = [ '_', 'k', 'n', 'u', 'h', 'c', '_' ] ++ d.reverse from rfl]
  rw [List.drop_left' (by rfl), List.reverse_reverse, parse_natChars]

/-! ## Whitespace stripping: supporting lemmas -/

theorem dropWhile_head_not_sat {α : Type} (p : α → Bool) :
    ∀ (l : List α) (c : α) (t : List α), l.dropWhile p = c :: t → p c = false := by
  intro l
  induction l with
  | nil => intro c t h; simp [List.dropWhile] at h
  | cons a l ih =>
    intro c t h
    by_cases ha : p a
    · rw [List.dropWhile_cons, if_pos ha] at h
      exact ih _ _ h
    · rw [List.dropWhile_cons, if_neg ha] at h
      obtain ⟨rfl, -⟩ := List.cons.injEq .. ▸ h
      · simpa using ha

theorem dropWhile_across {α : Type} (p : α → Bool) :
    ∀ (a : List α) (c : α) (t : List α), p c = false →
      ∃ a1, (a ++ c :: t).dropWhile p = a1 ++ c :: t := by
  intro a
  induction a with
  | nil =>
    intro c t hc
    exact ⟨[], by simp [List.dropWhile_cons, hc]⟩
  | cons x xs ih =>
    intro c t hc
    by_cases hx : p x
    · obtain ⟨a1, ha1⟩ := ih c t hc
      exact ⟨a1, by simp [List.dropWhile_cons, hx, ha1]⟩
    · exact ⟨x :: xs, by simp [List.dropWhile_cons, hx]⟩

theorem strip_within (l : Text) : stripChars l <:+: l := by
  have h1 : ((l.reverse.dropWhile wsp).reverse).dropWhile wsp
      <:+ (l.reverse.dropWhile wsp).reverse := List.dropWhile_suffix wsp
  have h3 : l.reverse.dropWhile wsp <:+ l.reverse := List.dropWhile_suffix wsp
  obtain ⟨u, hu⟩ := h3
  have h4 := congrArg List.reverse hu
  rw [List.reverse_append, List.reverse_reverse] at h4
  have h2 : (l.reverse.dropWhile wsp).reverse <+: l := ⟨u.reverse, h4⟩
  have h1i : stripChars l <:+: (l.reverse.dropWhile wsp).reverse :=
    List.IsSuffix.isInfix h1
  have h2i : (l.reverse.dropWhile wsp).reverse <:+: l :=
    List.IsPrefix.isInfix h2
  exact h1i.trans h2i

theorem strip_ends (l : Text) :
    stripChars l = [] ∨
    ∃ c t c' t', stripChars l = c :: t ∧ (stripChars l).reverse = c' :: t' ∧
      wsp c = false ∧ wsp c' = false := by
  cases hsl : stripChars l with
  | nil => exact Or.inl rfl
  | cons c t =>
    right
    have hsl2 : ((l.reverse.dropWhile wsp).reverse).dropWhile wsp = c :: t := hsl
    have hc : wsp c = false := dropWhile_head_not_sat wsp _ c t hsl2
    cases hrev : (stripChars l).reverse with
    | nil =>
      exfalso
      rw [hsl] at hrev
      simp at hrev
    | cons c' t' =>
      have hsuf : ((l.reverse.dropWhile wsp).reverse).dropWhile wsp
          <:+ (l.reverse.dropWhile wsp).reverse := List.dropWhile_suffix wsp
      obtain ⟨u, hu⟩ := hsuf
      have h4 := congrArg List.reverse hu
      rw [List.reverse_append, List.reverse_reverse] at h4
      have hrev2 : (((l.reverse.dropWhile wsp).reverse).dropWhile wsp).reverse
          = c' :: t' := hrev
      rw [hrev2] at h4
      have h5 : l.reverse.dropWhile wsp = c' :: (t' ++ u.reverse) := by
        rw [← h4]
        rfl
      refine ⟨c, t, c', t', rfl, ?_, hc, dropWhile_head_not_sat wsp _ _ _ h5⟩
      rw [← hsl]
      exact hrev

theorem strip_mono_within : ∀ z m : Text, z <:+: m →
    stripChars z <:+: stripChars m := by
  intro z m hzm
  rcases strip_ends z with hz | ⟨c, t, c', t', hz, hzr, hc, hc'⟩
  · rw [hz]
    exact List.nil_infix
  · obtain ⟨a, b, rfl⟩ := (strip_within z).trans hzm
    have hmr : (a ++ stripChars z ++ b).reverse
        = b.reverse ++ c' :: (t' ++ a.reverse) := by
      rw [List.reverse_append, List.reverse_append, hzr]
      simp [List.append_assoc]
    obtain ⟨b1, hb1⟩ := dropWhile_across wsp b.reverse c' (t' ++ a.reverse) hc'
    have hM : ((a ++ stripChars z ++ b).reverse.dropWhile wsp).reverse
        = a ++ (stripChars z ++ b1.reverse) := by
      rw [hmr, hb1]
      rw [show (c' :: (t' ++ a.reverse)) = (stripChars z).reverse ++ a.reverse from by
        rw [hzr]; rfl]
      simp [List.reverse_append, List.reverse_reverse, List.append_assoc]
    have hzc : stripChars z ++ b1.reverse = c :: (t ++ b1.reverse) := by
      rw [hz]
      rfl
    obtain ⟨a1, ha1⟩ := dropWhile_across wsp a c (t ++ b1.reverse) hc
    have hsm : stripChars (a ++ stripChars z ++ b)
        = a1 ++ (stripChars z ++ b1.reverse) := by
      show (((a ++ stripChars z ++ b).reverse.dropWhile wsp).reverse).dropWhile wsp = _
      rw [hM, hzc, ha1, ← hzc]
    exact ⟨a1, b1.reverse, by rw [hsm]; simp [List.append_assoc]⟩

theorem strip_idem (l : Text) : stripChars (stripChars l) = stripChars l := by
  rcases strip_ends l with h | ⟨c, t, c', t', hz, hzr, hc, hc'⟩
  · rw [h]
    rfl
  · show (((stripChars l).reverse.dropWhile wsp).reverse).dropWhile wsp = stripChars l
    rw [hzr]
    rw [List.dropWhile_cons, if_neg (by simp [hc'])]
    rw [← hzr, List.reverse_reverse, hz]
    rw [List.dropWhile_cons, if_neg (by simp [hc])]

/-! ## Splitter loop invariants -/

theorem splitLoop_keeps (size ov : Nat) :
    ∀ (ps : List Text) (chunks : List Text) (cur : Text) (q : Text),
      q ≠ [] → stripChars q = q →
      ((∃ c ∈ chunks, q <:+: c) ∨ q <:+: cur) →
      ((∃ c ∈ (splitLoop size ov chunks cur ps).1, q <:+: c) ∨
        q <:+: (splitLoop size ov chunks cur ps).2) := by
  intro ps
  induction ps with
  | nil => intro chunks cur q hq hqs h; simpa [splitLoop] using h
  | cons p ps ih =>
    intro chunks cur q hq hqs h
    simp only [splitLoop]
    split
    · split
      next hcur =>
        apply ih _ _ _ hq hqs
        rcases h with h | h
        · exact Or.inl h
        · rw [hcur] at h
          exact (hq (List.sublist_nil.mp h.sublist)).elim
      next hcur =>
        apply ih _ _ _ hq hqs
        rcases h with ⟨c, hcm, hqc⟩ | h
        · exact Or.inl ⟨c, List.mem_append_left _ hcm, hqc⟩
        · refine Or.inl ⟨stripChars cur, List.mem_append_right _ (by simp), ?_⟩
          rw [← hqs]
          exact strip_mono_within q cur h
    · split
      next hcur =>
        apply ih _ _ _ hq hqs
        rcases h with h | h
        · exact Or.inl h
        · rw [hcur] at h
          exact (hq (List.sublist_nil.mp h.sublist)).elim
      next hcur =>
        apply ih _ _ _ hq hqs
        rcases h with h | h
        · exact Or.inl h
        · right
          have h2 : cur <:+: cur ++ nl2 ++ p :=
            List.IsPrefix.isInfix ⟨nl2 ++ p, by simp⟩
          exact h.trans h2

theorem splitLoop_new (size ov : Nat) :
    ∀ (ps : List Text) (chunks : List Text) (cur : Text) (p : Text),
      p ∈ ps → stripChars p ≠ [] →
      ((∃ c ∈ (splitLoop size ov chunks cur ps).1, stripChars p <:+: c) ∨
        stripChars p <:+: (splitLoop size ov chunks cur ps).2) := by
  intro ps
  induction ps with
  | nil => intro chunks cur p hp; simp at hp
  | cons p0 ps ih =>
    intro chunks cur p hp hps
    rcases List.mem_cons.mp hp with rfl | hmem
    · have hsp : stripChars p <:+: p := strip_within p
      simp only [splitLoop]
      split
      · split
        · exact splitLoop_keeps size ov ps _ _ _ hps (strip_idem p) (Or.inr hsp)
        · apply splitLoop_keeps size ov ps _ _ _ hps (strip_idem p)
          right
          have h2 : p <:+: cur.drop (cur.length - ov) ++ nl2 ++ p :=
            List.IsSuffix.isInfix ⟨cur.drop (cur.length - ov) ++ nl2, by simp⟩
          exact hsp.trans h2
      · split
        · exact splitLoop_keeps size ov ps _ _ _ hps (strip_idem p) (Or.inr hsp)
        · apply splitLoop_keeps size ov ps _ _ _ hps (strip_idem p)
          right
          have h2 : p <:+: cur ++ nl2 ++ p :=
            List.IsSuffix.isInfix ⟨cur ++ nl2, by simp⟩
          exact hsp.trans h2
    · simp only [splitLoop]
      split
      · split
        · exact ih _ _ _ hmem hps
        · exact ih _ _ _ hmem hps
      · split
        · exact ih _ _ _ hmem hps
        · exact ih _ _ _ hmem hps

theorem splitLoop_stripped (size ov : Nat) :
    ∀ (ps : List Text) (chunks : List Text) (cur : Text),
      (∀ c ∈ chunks, stripChars c = c) →
      ∀ c ∈ (splitLoop size ov chunks cur ps).1, stripChars c = c := by
  intro ps
  induction ps with
  | nil => intro chunks cur h; simpa [splitLoop] using h
  | cons p ps ih =>
    intro chunks cur h
    simp only [splitLoop]
    split
    · split
      · exact ih _ _ h
      · apply ih
        intro c hc
        rcases List.mem_append.mp hc with hc | hc
        · exact h c hc
        · rw [List.mem_singleton] at hc
          subst hc
          exact strip_idem cur
    · split
      · exact ih _ _ h
      · exact ih _ _ h

theorem splitText_stripped (size ov : Nat) (text : Text) :
    ∀ c ∈ splitText size ov text, stripChars c = c := by
  intro c hc
  unfold splitText at hc
  rcases hsl : splitLoop size ov [] [] (splitPar text) with ⟨chunks, cur⟩
  rw [hsl] at hc
  have hch := splitLoop_stripped size ov (splitPar text) [] [] (by simp)
  rw [hsl] at hch
  by_cases hcur : cur = []
  · simp only [if_pos hcur] at hc
    exact hch c hc
  · simp only [if_neg hcur] at hc
    rcases List.mem_append.mp hc with hc | hc
    · exact hch c hc
    · rw [List.mem_singleton] at hc
      subst hc
      exact strip_idem cur

theorem enumFrom_snd_mem {α : Type} :
    ∀ (l : List α) (n : Nat) (pr : Nat × α), pr ∈ l.enumFrom n → pr.2 ∈ l := by
  intro l
  induction l with
  | nil => intro n pr h; simp [List.enumFrom] at h
  | cons a l ih =>
    intro n pr h
    rw [List.enumFrom, List.mem_cons] at h
    rcases h with rfl | h
    · simp
    · exact List.mem_cons_of_mem _ (ih _ _ h)

/-! ## Claim C6 -/

/-- Claim C6 is refuted: with budget 3 and overlap 2, splitting the
two-paragraph text abcd, ef repeats the overlap cd at the start of the
second chunk, so rejoining the chunks with the blank-line delimiter does not
reconstruct the input (nor does any join: the characters cd now occur
twice). -/
theorem c6_join_not_lossless :
    splitText 3 2 ( "abcd\n\nef".toList)
      = [ "abcd".toList, "cd\n\nef".toList ] ∧
    joinPar (splitText 3 2 ( "abcd\n\nef".toList)) ≠ "abcd\n\nef".toList := by
  exact ⟨by decide, by decide⟩

/-- Claim C6 as amended: reconstruction is not lossless (consecutive chunks
duplicate up to the overlap and chunk ends are whitespace-stripped), but no
text is dropped: every paragraph of the input that has any non-whitespace
content appears, whitespace-stripped, as a contiguous substring of some
returned chunk, for every budget and overlap. -/
theorem c6_no_paragraph_dropped (size ov : Nat) (text : Text) (p : Text)
    (hp : p ∈ splitPar text) (hps : stripChars p ≠ []) :
    ∃ c ∈ splitText size ov text, stripChars p <:+: c := by
  unfold splitText
  rcases hsl : splitLoop size ov [] [] (splitPar text) with ⟨chunks, cur⟩
  have hcov := splitLoop_new size ov (splitPar text) [] [] p hp hps
  rw [hsl] at hcov
  by_cases hcur : cur = []
  · simp only [if_pos hcur]
    rcases hcov with ⟨c, hcm, hqc⟩ | h
    · exact ⟨c, hcm, hqc⟩
    · rw [hcur] at h
      exact (hps (List.sublist_nil.mp h.sublist)).elim
  · simp only [if_neg hcur]
    rcases hcov with ⟨c, hcm, hqc⟩ | h
    · exact ⟨c, List.mem_append_left _ hcm, hqc⟩
    · refine ⟨stripChars cur, List.mem_append_right _ (by simp), ?_⟩
      rw [← strip_idem p]
      exact strip_mono_within _ _ h

/-- Witness for the amended C6 theorem at a concrete two-paragraph text. -/
theorem c6_no_paragraph_dropped_witness :
    ( "hi".toList ∈ splitPar ( "hi\n\nyo".toList)) ∧
    stripChars ( "hi".toList) ≠ [] ∧
    (∃ c ∈ splitText 3 2 ( "hi\n\nyo".toList), stripChars ( "hi".toList) <:+: c) :=
  ⟨by decide, by decide, c6_no_paragraph_dropped 3 2 _ _ (by decide) (by decide)⟩

/-! ## Claim C7 -/

/-- Claim C7 is refuted on the chroma_utils variant: get_document_chunks
returns Python None for an id absent from the store, not an empty
sequence. -/
theorem c7_chroma_chunks_none :
    chromaGetDocumentChunks ( "missing".toList) [] = none := rfl

/-- Claim C7 as amended: for an unknown document id,
VectorStore.get_document_chunks returns the empty sequence without raising,
while chroma_utils.get_document_chunks returns None (an absent value). -/
theorem c7_unknown_id_empty (d : Text) (store : List VSRec) (cstore : List CRec)
    (h1 : ∀ r ∈ store, (r.meta.document_id == d) = false)
    (h2 : ∀ r ∈ cstore, (r.id == d) = false) :
    vsGetDocumentChunks d store = [] ∧ chromaGetDocumentChunks d cstore = none := by
  constructor
  · unfold vsGetDocumentChunks
    have hf : store.filter (fun r => r.meta.document_id == d) = [] := by
      rw [List.filter_eq_nil_iff]
      intro r hr
      simp [h1 r hr]
    rw [hf]
    rfl
  · unfold chromaGetDocumentChunks
    have hf : cstore.filter (fun r => r.id == d) = [] := by
      rw [List.filter_eq_nil_iff]
      intro r hr
      simp [h2 r hr]
    rw [hf]

/-- Witness for the amended C7 theorem on the empty stores. -/
theorem c7_unknown_id_empty_witness :
    (∀ r ∈ ([] : List VSRec), (r.meta.document_id == ( "x".toList)) = false) ∧
    (∀ r ∈ ([] : List CRec), (r.id == ( "x".toList)) = false) ∧
    (vsGetDocumentChunks ( "x".toList) [] = [] ∧
      chromaGetDocumentChunks ( "x".toList) [] = none) :=
  ⟨by simp, by simp, c7_unknown_id_empty ( "x".toList) [] [] (by simp) (by simp)⟩

/-! ## Claim C8 -/

/-- Claim C8 is refuted: a whitespace-only paragraph followed by an
overflowing paragraph makes split_text flush the stripped whitespace as an
empty chunk (budget 3, overlap 2 shown; the same happens at the fixed
1000/200 budget with a long enough paragraph). -/
theorem c8_empty_chunk_emitted :
    [] ∈ splitText 3 2 ( " \n\nabcd".toList) := by
  decide

/-- Claim C8 as amended: every chunk object built by chunk_text carries
counts consistent with its content (character_count is the content length,
word_count the number of maximal non-whitespace runs, both Nat) and its
content is whitespace-stripped; non-emptiness of the content, however, can
fail. -/
theorem c8_chunk_counts_consistent (text : Text) (co : ChunkObj)
    (h : co ∈ chunkText text) :
    co.character_count = co.content.length ∧
    co.word_count = countWords co.content ∧
    stripChars co.content = co.content := by
  unfold chunkText at h
  rw [List.mem_map] at h
  obtain ⟨pr, hpr, rfl⟩ := h
  refine ⟨rfl, rfl, ?_⟩
  exact splitText_stripped 1000 200 text _ (enumFrom_snd_mem _ _ _ hpr)

/-- Witness for the amended C8 theorem on a one-chunk text. -/
theorem c8_chunk_counts_consistent_witness :
    ((⟨ "ab".toList, 0, 2, 1⟩ : ChunkObj) ∈ chunkText ( "ab".toList)) ∧
    ((⟨ "ab".toList, 0, 2, 1⟩ : ChunkObj).character_count
        = (⟨ "ab".toList, 0, 2, 1⟩ : ChunkObj).content.length ∧
      (⟨ "ab".toList, 0, 2, 1⟩ : ChunkObj).word_count
        = countWords (⟨ "ab".toList, 0, 2, 1⟩ : ChunkObj).content ∧
      stripChars (⟨ "ab".toList, 0, 2, 1⟩ : ChunkObj).content
        = (⟨ "ab".toList, 0, 2, 1⟩ : ChunkObj).content) :=
  ⟨by decide, c8_chunk_counts_consistent ( "ab".toList) _ (by decide)⟩

end Recallify
